import Mathlib

/-!
Verification of the hourly-activity dashboard core (app.py): curve
construction (cumulative), growth-weighted projection
(calculate_projection), hierarchical filter resolution (the /filters
route), hour-column discovery (load_data), and the /chart-data route.
Numbers are modelled as rationals, calendar dates as integers (day
numbers), a parsed-or-failed date as an Option Int, and a table row as a
record with optional date, region, zone, channel plus a map from column
name to hourly count.
-/

/-- One normalized row of the raw table: a parsed date (none when the
date text failed to parse), the optional region, zone and channel string
values (none models a null cell), and the numeric hour cells indexed by
column name (missing and non-numeric cells were already coerced to 0 by
load_data). -/
structure CRow where
  act_date : Option Int
  region : Option String
  zone : Option String
  channel : Option String
  hours : String → ℚ

/-- The loaded dataframe together with which of the optional columns are
present in the source table. The region column is named region, the zone
column Zone, the channel column Channel in the source. -/
structure Dataset where
  rows : List CRow
  hasZone : Bool
  hasRegion : Bool
  hasChannel : Bool

/-- Result record of the /filters route. -/
structure FilterOptions where
  zones : List String
  regions : List String
  channels : List String
deriving DecidableEq

/-- Payload of the /chart-data route (the numeric parts the claims are
about; the purely cosmetic label strings are omitted). -/
structure ChartPayload where
  base : List (Option ℚ)
  prev : List ℚ
  last7 : List ℚ
  projected : List (Option ℚ)
  current_hour : Option ℕ
  live_point : Option ℚ
deriving DecidableEq

/-- Running cumulative sums of a list, as pandas cumsum. -/
def cumsum : List ℚ → List ℚ
  | [] => []
  | x :: xs => x :: (cumsum xs).map (fun y => x + y)

/-- Pad a curve to length 24 by repeating its last value, or truncate to
the first 24 entries, exactly as lines 34 to 36 and 167 to 169 of app.py
do. -/
def padTo24 (v : List ℚ) : List ℚ :=
  if v.length < 24 then v ++ List.replicate (24 - v.length) (v.getLastD 0) else v.take 24

/-- Sum of one hour column over a row subset, as df[hour_cols].sum() does
per column. -/
def col_sum (rows : List CRow) (c : String) : ℚ :=
  (rows.map (fun r => r.hours c)).sum

/-- The cumulative function of app.py lines 30 to 36: per-column sums over
the subset, cumulatively summed in hour-column order, padded flat or
truncated to 24; 24 zeros for an empty subset or empty hour-column list. -/
def cumulative (rows : List CRow) (hour_cols : List String) : List ℚ :=
  if rows.isEmpty || hour_cols.isEmpty then List.replicate 24 0
  else padTo24 (cumsum (hour_cols.map (col_sum rows)))

/-- The curve normalization of app.py lines 52 to 53: a falsy (empty)
curve is replaced by 24 zeros, and the result truncated to 24 entries. -/
def ensureCurve (c : List ℚ) : List ℚ :=
  (if c.isEmpty then List.replicate 24 0 else c).take 24

/-- The calculate_projection function of app.py lines 38 to 63. Entries
are none where the Python list holds None. -/
def calculate_projection (prev_curve last7_curve : List ℚ)
    (current_hour : Option ℕ) (current_value : Option ℚ) : List (Option ℚ) :=
  match current_hour with
  | none => List.replicate 24 none
  | some h =>
    if 23 ≤ h then List.replicate 24 none
    else
      match current_value with
      | none => List.replicate 24 none
      | some v =>
        (List.range 24).map (fun i =>
          if h < i then
            some (v + (1/2) * ((ensureCurve prev_curve).getD i 0 - (ensureCurve prev_curve).getD h 0)
              + (1/2) * ((ensureCurve last7_curve).getD i 0 - (ensureCurve last7_curve).getD h 0))
          else none)

/-- Membership test of an optional cell value against a selection list,
as pandas Series.isin: a null cell never matches. -/
def optIsin (v : Option String) (sel : List String) : Bool :=
  match v with
  | none => false
  | some s => decide (s ∈ sel)

/-- Stable insertion of one element into a list sorted by the strict
comparison lt: the element goes before the first entry not strictly below
it. -/
def insertBy (lt : String → String → Bool) (x : String) : List String → List String
  | [] => [x]
  | y :: ys => if lt y x then y :: insertBy lt x ys else x :: y :: ys

/-- Stable sort by the strict comparison lt, the semantics of Python
sorted with a key. -/
def sortBy (lt : String → String → Bool) (l : List String) : List String :=
  l.foldr (insertBy lt) []

/-- Deduplicate, then sort lexicographically ascending: the semantics of
sorted(series.dropna().astype(str).unique().tolist()) on the collected
string values. -/
def sortedUnique (l : List String) : List String :=
  sortBy (fun a b => decide (a < b)) l.dedup

/-- The /filters route of app.py lines 73 to 133, after date parsing:
sel_date is the parsed date or none on parse failure, and the two
selection lists are the zone and region query parameters. -/
def filters (d : Dataset) (sel_date : Option Int)
    (zones_selected regions_selected : List String) : FilterOptions :=
  match sel_date with
  | none => ⟨[], [], []⟩
  | some t =>
    let df_day := d.rows.filter (fun r => decide (r.act_date = some t))
    if d.hasRegion then
      let zones :=
        if d.hasZone then
          let dfz := if regions_selected.isEmpty then df_day
                     else df_day.filter (fun r => optIsin r.region regions_selected)
          sortedUnique (dfz.filterMap (fun r => r.zone))
        else []
      let dfr := if d.hasZone && !zones_selected.isEmpty
                 then df_day.filter (fun r => optIsin r.zone zones_selected) else df_day
      let regions := sortedUnique (dfr.filterMap (fun r => r.region))
      let dfc0 := if d.hasZone && !zones_selected.isEmpty
                  then df_day.filter (fun r => optIsin r.zone zones_selected) else df_day
      let dfc := if regions_selected.isEmpty then dfc0
                 else dfc0.filter (fun r => optIsin r.region regions_selected)
      let channels := sortedUnique (dfc.filterMap
        (fun r => if d.hasChannel then r.channel else none))
      ⟨zones, regions, channels⟩
    else ⟨[], [], []⟩

/-- Rows whose date lies in the trailing window of app.py lines 157 to
163: between sel_date minus 7 and sel_date minus 1 inclusive; a row with
an unparsed date never matches, as NaT comparisons are false. -/
def last7_window (rows : List CRow) (sel_date : Int) : List CRow :=
  rows.filter (fun r =>
    match r.act_date with
    | some t => decide (sel_date - 7 ≤ t) && decide (t ≤ sel_date - 1)
    | none => false)

/-- Count of distinct parsed dates in a row subset, as
Series.nunique which ignores nulls. -/
def nuniqueDates (rows : List CRow) : ℕ :=
  ((rows.filterMap (fun r => r.act_date)).dedup).length

/-- The trailing-seven-day average curve of app.py lines 163 to 171:
per-column sums over the window divided by max(nunique dates, 1),
cumulatively summed, padded flat or truncated to 24; 24 zeros when the
window or the hour-column list is empty. -/
def last7_curve_of (rows : List CRow) (hour_cols : List String) (sel_date : Int) : List ℚ :=
  let w := last7_window rows sel_date
  if w.isEmpty || hour_cols.isEmpty then List.replicate 24 0
  else padTo24 (cumsum (hour_cols.map (fun c => col_sum w c / ((max (nuniqueDates w) 1 : ℕ) : ℚ))))

/-- The dataframe filtering of app.py lines 148 to 154: restrict by the
selected regions, zones and channels across all dates; zone and channel
restrictions apply only when the corresponding column exists. -/
def applyFilters (d : Dataset) (regions zones channels : List String) : List CRow :=
  let df1 := if regions.isEmpty then d.rows
             else d.rows.filter (fun r => optIsin r.region regions)
  let df2 := if zones.isEmpty || !d.hasZone then df1
             else df1.filter (fun r => optIsin r.zone zones)
  if channels.isEmpty || !d.hasChannel then df2
  else df2.filter (fun r => optIsin r.channel channels)

/-- Rows of one exact calendar day, the df filter of app.py lines 160
to 161. -/
def day_rows (rows : List CRow) (t : Int) : List CRow :=
  rows.filter (fun r => decide (r.act_date = some t))

/-- The displayed actual curve of app.py lines 177 to 180: raw values up
to and including the current hour, all 24 raw values when the current
hour is undefined, none beyond. -/
def base_curve_of (base_raw : List ℚ) (current_hour : Option ℕ) : List (Option ℚ) :=
  (List.range 24).map (fun i =>
    match current_hour with
    | none => some (base_raw.getD i 0)
    | some h => if i ≤ h then some (base_raw.getD i 0) else none)

/-- The /chart-data route of app.py lines 135 to 201, after date parsing:
sel_date is the parsed date or none on parse failure, now_date and
now_hour are the wall-clock day and hour at evaluation time. Returns the
error body with HTTP status 400 on parse failure, the payload otherwise. -/
def chart_data (d : Dataset) (hour_cols : List String) (sel_date : Option Int)
    (regions zones channels : List String) (now_date : Int) (now_hour : ℕ) :
    Except (String × ℕ) ChartPayload :=
  match sel_date with
  | none => Except.error ("Invalid date", 400)
  | some sd =>
    let df := applyFilters d regions zones channels
    let base_raw := cumulative (day_rows df sd) hour_cols
    let prev_curve := cumulative (day_rows df (sd - 1)) hour_cols
    let last7_curve := last7_curve_of df hour_cols sd
    let current_hour : Option ℕ := if sd = now_date then some now_hour else none
    let base_curve := base_curve_of base_raw current_hour
    let current_value := current_hour.map (fun h => base_raw.getD h 0)
    let projected := calculate_projection prev_curve last7_curve current_hour current_value
    Except.ok ⟨base_curve, prev_curve, last7_curve, projected, current_hour, current_value⟩

/-- The parse_hour_index helper of app.py lines 11 to 13: value of the
leftmost maximal digit run in the column name, 9999 when there is none.
digitsToNat folds a digit run into its value. -/
def digitsToNat (ds : List Char) : ℕ :=
  ds.foldl (fun acc c => acc * 10 + (c.toNat - 48)) 0

/-- Leftmost maximal run of decimal digits in a character list, as
re.search of one or more digits. -/
def firstIntRun : List Char → Option ℕ
  | [] => none
  | c :: rest =>
    if c.isDigit then some (digitsToNat (c :: rest.takeWhile Char.isDigit))
    else firstIntRun rest

/-- The parse_hour_index function itself (underscore-prefixed in the
source). -/
def parse_hour_index (col : String) : ℕ :=
  (firstIntRun col.data).getD 9999

/-- Column-name test of app.py line 21: the lowercased name starts with
the letter h. -/
def isHourCol (c : String) : Bool :=
  match c.data with
  | [] => false
  | ch :: _ => decide (ch.toLower = 'h')

/-- Hour-column discovery of load_data, app.py lines 21 to 22: keep the
columns passing isHourCol, stably sorted ascending by parse_hour_index. -/
def hour_cols_of (columns : List String) : List String :=
  sortBy (fun a b => decide (parse_hour_index a < parse_hour_index b)) (columns.filter isHourCol)

/-- Length of cumsum equals the input length. -/
theorem cumsum_length (l : List ℚ) : (cumsum l).length = l.length := by
  induction l with
  | nil => rfl
  | cons x xs ih => simp [cumsum, ih]

/-- Entry i of cumsum is the sum of the first i plus one input entries. -/
theorem cumsum_getD (l : List ℚ) (i : ℕ) (h : i < l.length) :
    (cumsum l).getD i 0 = (l.take (i+1)).sum := by
  induction l generalizing i with
  | nil => simp at h
  | cons x xs ih =>
    cases i with
    | zero => simp [cumsum]
    | succ n =>
      have hn : n < xs.length := by simpa using h
      have hn' : n < (cumsum xs).length := by rw [cumsum_length]; exact hn
      simp only [cumsum, List.getD_cons_succ]
      rw [List.getD_eq_getElem _ _ (by simpa using hn'), List.getElem_map,
        ← List.getD_eq_getElem _ 0 hn', ih n hn]
      simp [List.take_succ_cons]

/-- The default-independence of getLastD on nonempty lists. -/
theorem getLastD_indep (l : List ℚ) (d e : ℚ) (h : l ≠ []) : l.getLastD d = l.getLastD e := by
  induction l generalizing d e with
  | nil => exact absurd rfl h
  | cons x xs ih =>
    cases xs with
    | nil => rfl
    | cons y ys => simp only [List.getLastD_cons]

/-- The last entry of cumsum is the total sum. -/
theorem cumsum_getLastD (l : List ℚ) : (cumsum l).getLastD 0 = l.sum := by
  have hlen := cumsum_length l
  cases l with
  | nil => simp [cumsum]
  | cons x xs =>
    have hne : cumsum (x :: xs) ≠ [] := by
      intro hc
      have := cumsum_length (x :: xs)
      rw [hc] at this
      simp at this
    have hlt : (x :: xs).length - 1 < (x :: xs).length := by simp
    have : (cumsum (x :: xs)).getLastD 0 = (cumsum (x :: xs)).getD ((x :: xs).length - 1) 0 := by
      rw [List.getLastD_eq_getLast?, List.getLast?_eq_getElem?,
        List.getD_eq_getD_get?, List.get?_eq_getElem?, cumsum_length]
    rw [this, cumsum_getD _ _ (by simp)]
    have : (x :: xs).length - 1 + 1 = (x :: xs).length := by simp
    rw [this, List.take_length]

/-- padTo24 always yields a list of 24 entries. -/
theorem padTo24_length (v : List ℚ) : (padTo24 v).length = 24 := by
  unfold padTo24
  split
  · simp; omega
  · simp; omega

/-- Entry i of the padded cumulative sums is the sum of the first i plus
one inputs, for every i below 24, flat padding and truncation included. -/
theorem padcum_getD (l : List ℚ) (i : ℕ) (h : i < 24) :
    (padTo24 (cumsum l)).getD i 0 = (l.take (i+1)).sum := by
  have hlen := cumsum_length l
  unfold padTo24
  split
  case isTrue hlt =>
    rcases Nat.lt_or_ge i (cumsum l).length with hi | hi
    · rw [List.getD_append _ _ _ _ hi, cumsum_getD _ _ (by omega)]
    · rw [List.getD_append_right _ _ _ _ hi,
        List.getD_eq_getElem _ _ (by simp only [List.length_replicate]; omega),
        List.getElem_replicate, cumsum_getLastD,
        List.take_of_length_le (by omega)]
  case isFalse hge =>
    have hi : i < (cumsum l).length := by omega
    rw [List.getD_eq_getElem _ _ (by simp only [List.length_take]; omega)]
    rw [List.getElem_take, ← List.getD_eq_getElem _ 0 hi, cumsum_getD _ _ (by omega)]

/-- The cumulative function always yields a list of 24 entries. -/
theorem cumulative_length (rows : List CRow) (cols : List String) :
    (cumulative rows cols).length = 24 := by
  unfold cumulative
  split
  · simp
  · exact padTo24_length _

/-- Entry i of cumulative is the sum of the first i plus one per-column
sums, uniformly over the empty, padded and truncated cases. -/
theorem cumulative_getD (rows : List CRow) (cols : List String) (i : ℕ) (h : i < 24) :
    (cumulative rows cols).getD i 0 = ((cols.map (col_sum rows)).take (i+1)).sum := by
  unfold cumulative
  split
  case isTrue hcond =>
    have hz : (List.replicate 24 (0:ℚ)).getD i 0 = 0 := by
      rw [List.getD_eq_getElem _ _ (by simpa using h), List.getElem_replicate]
    rw [hz]
    rcases (Bool.or_eq_true _ _).mp hcond with he | he
    · have hrows : rows = [] := by simpa [List.isEmpty_iff] using he
      subst hrows
      refine (List.sum_eq_zero ?_).symm
      intro x hx
      have hx' := List.mem_of_mem_take hx
      rcases List.mem_map.mp hx' with ⟨c, _, hc⟩
      simp [col_sum] at hc
      exact hc.symm
    · have hcols : cols = [] := by simpa [List.isEmpty_iff] using he
      subst hcols
      simp
  case isFalse => exact padcum_getD _ _ h

/-- Example previous-day curve used in concrete instantiations below:
value 40 at hour 10 and 60 at hour 15, as in the specification example. -/
def exPrev : List ℚ :=
  [0, 0, 0, 0, 0, 0, 0, 0, 0, 0, 40, 40, 40, 40, 40, 60, 60, 60, 60, 60, 60, 60, 60, 60]

/-- Example trailing-average curve: value 45 at hour 10 and 55 at hour
15, as in the specification example. -/
def exLast7 : List ℚ :=
  [0, 0, 0, 0, 0, 0, 0, 0, 0, 0, 45, 45, 45, 45, 45, 55, 55, 55, 55, 55, 55, 55, 55, 55]

/-- Example hour cells: counts 1 to 6 in columns h0 to h5. -/
def wHours6 : String → ℚ := fun c =>
  if c = "h0" then 1 else if c = "h1" then 2 else if c = "h2" then 3
  else if c = "h3" then 4 else if c = "h4" then 5 else if c = "h5" then 6 else 0

/-- Example row with the h0 to h5 counts. -/
def wRow6 : CRow := ⟨some 0, some "R1", some "Z1", some "C1", wHours6⟩

/-- Example discovered hour columns h0 to h5. -/
def wCols6 : List String := ["h0", "h1", "h2", "h3", "h4", "h5"]

/-- Example row on day 0 in region R1, zone Z1, channel C1. -/
def wRow31 : CRow := ⟨some 0, some "R1", some "Z1", some "C1", fun _ => 1⟩

/-- Example row on day 0 in region R2, zone Z2, channel C2. -/
def wRow32 : CRow := ⟨some 0, some "R2", some "Z2", some "C2", fun _ => 1⟩

/-- Example two-row dataset with all optional columns present. -/
def wD3 : Dataset := ⟨[wRow31, wRow32], true, true, true⟩

/-- Example dataset whose region column is absent. -/
def wDnoreg : Dataset := ⟨[wRow31], true, false, true⟩

/-- Example row on day 5 with two units in column h0. -/
def wRow4 : CRow := ⟨some 5, some "R1", none, none, fun c => if c = "h0" then 2 else 0⟩

/-- Normalizing a curve that already has 24 entries changes nothing. -/
theorem ensureCurve_eq_self (c : List ℚ) (hc : c.length = 24) : ensureCurve c = c := by
  unfold ensureCurve
  have hne : c.isEmpty = false := by
    cases c with
    | nil => simp at hc
    | cons x xs => rfl
  rw [hne]
  simp only [Bool.false_eq_true, if_false]
  rw [← hc, List.take_length]

/-- With an undefined current hour the projection is all none. -/
theorem calcproj_none_hour (p l7 : List ℚ) (cv : Option ℚ) :
    calculate_projection p l7 none cv = List.replicate 24 none := rfl

/-- With a current hour of 23 or more the projection is all none. -/
theorem calcproj_hour_ge (p l7 : List ℚ) (h : ℕ) (cv : Option ℚ) (hh : 23 ≤ h) :
    calculate_projection p l7 (some h) cv = List.replicate 24 none := by
  simp [calculate_projection, hh]

/-- With an undefined current value the projection is all none. -/
theorem calcproj_none_value (p l7 : List ℚ) (h : ℕ) :
    calculate_projection p l7 (some h) none = List.replicate 24 none := by
  by_cases hh : 23 ≤ h <;> simp [calculate_projection, hh]

/-- In the defined case the projection is the pointwise map over the 24
hour indices. -/
theorem calcproj_eq_map (p l7 : List ℚ) (h : ℕ) (v : ℚ) (hh : h < 23) :
    calculate_projection p l7 (some h) (some v) =
      (List.range 24).map (fun i =>
        if h < i then
          some (v + (1/2) * ((ensureCurve p).getD i 0 - (ensureCurve p).getD h 0)
            + (1/2) * ((ensureCurve l7).getD i 0 - (ensureCurve l7).getD h 0))
        else none) := by
  simp [calculate_projection, Nat.not_le.mpr hh]

/-- The projection always has 24 entries. -/
theorem calcproj_length (p l7 : List ℚ) (ch : Option ℕ) (cv : Option ℚ) :
    (calculate_projection p l7 ch cv).length = 24 := by
  cases ch with
  | none => rw [calcproj_none_hour]; simp
  | some h =>
    by_cases hh : 23 ≤ h
    · rw [calcproj_hour_ge p l7 h cv hh]; simp
    · cases cv with
      | none => rw [calcproj_none_value]; simp
      | some v => rw [calcproj_eq_map p l7 h v (by omega)]; simp

/-- Entry i of the projection in the defined case: none up to the current
hour, the anchored half-half growth blend strictly after it. -/
theorem calcproj_getD (p l7 : List ℚ) (h : ℕ) (v : ℚ) (hh : h < 23) (i : ℕ) (hi : i < 24) :
    (calculate_projection p l7 (some h) (some v)).getD i none =
      if h < i then
        some (v + (1/2) * ((ensureCurve p).getD i 0 - (ensureCurve p).getD h 0)
          + (1/2) * ((ensureCurve l7).getD i 0 - (ensureCurve l7).getD h 0))
      else none := by
  rw [calcproj_eq_map p l7 h v hh,
    List.getD_eq_getElem _ _ (by simpa using hi), List.getElem_map, List.getElem_range]

/-- Membership through stable insertion. -/
theorem mem_insertBy (lt : String → String → Bool) (x a : String) (l : List String) :
    a ∈ insertBy lt x l ↔ a = x ∨ a ∈ l := by
  induction l with
  | nil => simp [insertBy]
  | cons y ys ih =>
    unfold insertBy
    split
    · simp only [List.mem_cons, ih]
      tauto
    · simp only [List.mem_cons]

/-- Stable insertion permutes consing. -/
theorem insertBy_perm (lt : String → String → Bool) (x : String) (l : List String) :
    List.Perm (insertBy lt x l) (x :: l) := by
  induction l with
  | nil => exact List.Perm.refl _
  | cons y ys ih =>
    unfold insertBy
    split
    · exact List.Perm.trans (List.Perm.cons y ih) (List.Perm.swap x y ys)
    · exact List.Perm.refl _

/-- The stable sort permutes its input. -/
theorem sortBy_perm (lt : String → String → Bool) (l : List String) :
    List.Perm (sortBy lt l) l := by
  induction l with
  | nil => exact List.Perm.refl _
  | cons x xs ih =>
    exact List.Perm.trans (insertBy_perm lt x (sortBy lt xs)) (List.Perm.cons x ih)

/-- Insertion keeps the sortedness invariant of insertion sort, for any
asymmetric comparison whose complement is transitive. -/
theorem pairwise_insertBy (lt : String → String → Bool)
    (hasym : ∀ a b, lt a b = true → lt b a = false)
    (htrans : ∀ a b c, lt b a = false → lt c b = false → lt c a = false)
    (x : String) (l : List String) (hl : l.Pairwise (fun a b => lt b a = false)) :
    (insertBy lt x l).Pairwise (fun a b => lt b a = false) := by
  induction l with
  | nil => simp [insertBy]
  | cons y ys ih =>
    rcases List.pairwise_cons.mp hl with ⟨hy, hys⟩
    unfold insertBy
    split
    case isTrue hxy =>
      refine List.pairwise_cons.mpr ⟨?_, ih hys⟩
      intro z hz
      rcases (mem_insertBy _ _ _ _).mp hz with rfl | hz'
      · exact hasym y z hxy
      · exact hy z hz'
    case isFalse hxy =>
      have hxyf : lt y x = false := by
        cases hcase : lt y x
        · rfl
        · exact absurd hcase hxy
      refine List.pairwise_cons.mpr ⟨?_, hl⟩
      intro z hz
      rcases List.mem_cons.mp hz with rfl | hz'
      · exact hxyf
      · exact htrans x y z hxyf (hy z hz')

/-- The stable sort is sorted with respect to the complement of its
comparison. -/
theorem pairwise_sortBy (lt : String → String → Bool)
    (hasym : ∀ a b, lt a b = true → lt b a = false)
    (htrans : ∀ a b c, lt b a = false → lt c b = false → lt c a = false)
    (l : List String) :
    (sortBy lt l).Pairwise (fun a b => lt b a = false) := by
  induction l with
  | nil => simp [sortBy]
  | cons x xs ih => exact pairwise_insertBy lt hasym htrans x (sortBy lt xs) ih

/-- sortedUnique preserves membership. -/
theorem mem_sortedUnique (l : List String) (a : String) : a ∈ sortedUnique l ↔ a ∈ l := by
  unfold sortedUnique
  rw [(sortBy_perm _ _).mem_iff, List.mem_dedup]

/-- sortedUnique has no duplicates. -/
theorem sortedUnique_nodup (l : List String) : (sortedUnique l).Nodup :=
  ((sortBy_perm _ _).nodup_iff).mpr (List.nodup_dedup l)

/-- sortedUnique is strictly sorted lexicographically ascending. -/
theorem sortedUnique_sorted (l : List String) :
    (sortedUnique l).Pairwise (fun a b : String => a < b) := by
  have hp := pairwise_sortBy (fun a b => decide (a < b))
    (fun a b hab => by
      simp only [decide_eq_true_eq] at hab
      simpa using lt_asymm hab)
    (fun a b c h1 h2 => by
      simp only [decide_eq_false_iff_not] at h1 h2 ⊢
      intro hca
      rcases lt_or_le c b with hcb | hbc
      · exact h2 hcb
      · exact h1 (lt_of_le_of_lt hbc hca)) l.dedup
  have hnd := sortedUnique_nodup l
  unfold sortedUnique at hnd ⊢
  refine (hnd.and hp).imp ?_
  intro a b hab
  rcases hab with ⟨hne, hlt⟩
  simp only [decide_eq_false_iff_not] at hlt
  exact lt_of_le_of_ne (not_lt.mp hlt) hne

/-- The isin test succeeds exactly on a non-null value in the selection. -/
theorem optIsin_true_iff (v : Option String) (sel : List String) :
    optIsin v sel = true ↔ ∃ s, v = some s ∧ s ∈ sel := by
  cases v with
  | none => simp [optIsin]
  | some s => simp [optIsin]

/-- Zones option-set membership of the /filters route. -/
theorem mem_zones_iff (d : Dataset) (t : Int) (zsel rsel : List String)
    (hreg : d.hasRegion = true) (z : String) :
    z ∈ (filters d (some t) zsel rsel).zones ↔
      (d.hasZone = true ∧ ∃ r, r ∈ d.rows ∧ r.act_date = some t ∧ r.zone = some z ∧
        (rsel ≠ [] → ∃ s, s ∈ rsel ∧ r.region = some s)) := by
  cases hz : d.hasZone with
  | false => simp [filters, hreg, hz]
  | true =>
    by_cases hr : rsel = []
    · subst hr
      simp [filters, hreg, hz, mem_sortedUnique, List.mem_filterMap, List.mem_filter]
      aesop
    · have hr' : rsel.isEmpty = false := by
        cases rsel with
        | nil => exact absurd rfl hr
        | cons a as => rfl
      simp [filters, hreg, hz, hr', mem_sortedUnique, List.mem_filterMap, List.mem_filter,
        optIsin_true_iff, hr]
      aesop

/-- Regions option-set membership of the /filters route. -/
theorem mem_regions_iff (d : Dataset) (t : Int) (zsel rsel : List String)
    (hreg : d.hasRegion = true) (g : String) :
    g ∈ (filters d (some t) zsel rsel).regions ↔
      (∃ r, r ∈ d.rows ∧ r.act_date = some t ∧ r.region = some g ∧
        (d.hasZone = true → zsel ≠ [] → ∃ s, s ∈ zsel ∧ r.zone = some s)) := by
  cases hz : d.hasZone with
  | false =>
    simp [filters, hreg, hz, mem_sortedUnique, List.mem_filterMap, List.mem_filter]
    aesop
  | true =>
    by_cases hzs : zsel = []
    · subst hzs
      simp [filters, hreg, hz, mem_sortedUnique, List.mem_filterMap, List.mem_filter]
      aesop
    · have hzs' : zsel.isEmpty = false := by
        cases zsel with
        | nil => exact absurd rfl hzs
        | cons a as => rfl
      simp [filters, hreg, hz, hzs', mem_sortedUnique, List.mem_filterMap, List.mem_filter,
        optIsin_true_iff, hzs]
      aesop

/-- Channels option-set membership of the /filters route. -/
theorem mem_channels_iff (d : Dataset) (t : Int) (zsel rsel : List String)
    (hreg : d.hasRegion = true) (c : String) :
    c ∈ (filters d (some t) zsel rsel).channels ↔
      (d.hasChannel = true ∧ ∃ r, r ∈ d.rows ∧ r.act_date = some t ∧ r.channel = some c ∧
        (d.hasZone = true → zsel ≠ [] → ∃ s, s ∈ zsel ∧ r.zone = some s) ∧
        (rsel ≠ [] → ∃ s, s ∈ rsel ∧ r.region = some s)) := by
  cases hc : d.hasChannel with
  | false =>
    cases hz : d.hasZone <;> by_cases hzs : zsel = [] <;> by_cases hr : rsel = [] <;>
      simp [filters, hreg, hz, hc, mem_sortedUnique, List.mem_filterMap, List.mem_filter]
  | true =>
    cases hz : d.hasZone with
    | false =>
      by_cases hr : rsel = []
      · subst hr
        simp [filters, hreg, hz, hc, mem_sortedUnique, List.mem_filterMap, List.mem_filter]
        aesop
      · have hr' : rsel.isEmpty = false := by
          cases rsel with
          | nil => exact absurd rfl hr
          | cons a as => rfl
        simp [filters, hreg, hz, hc, hr', mem_sortedUnique, List.mem_filterMap, List.mem_filter,
          optIsin_true_iff, hr]
        aesop
    | true =>
      by_cases hzs : zsel = []
      · subst hzs
        by_cases hr : rsel = []
        · subst hr
          simp [filters, hreg, hz, hc, mem_sortedUnique, List.mem_filterMap, List.mem_filter]
          aesop
        · have hr' : rsel.isEmpty = false := by
            cases rsel with
            | nil => exact absurd rfl hr
            | cons a as => rfl
          simp [filters, hreg, hz, hc, hr', mem_sortedUnique, List.mem_filterMap,
            List.mem_filter, optIsin_true_iff, hr]
          aesop
      · have hzs' : zsel.isEmpty = false := by
          cases zsel with
          | nil => exact absurd rfl hzs
          | cons a as => rfl
        by_cases hr : rsel = []
        · subst hr
          simp [filters, hreg, hz, hc, hzs', mem_sortedUnique, List.mem_filterMap,
            List.mem_filter, optIsin_true_iff, hzs]
          aesop
        · have hr' : rsel.isEmpty = false := by
            cases rsel with
            | nil => exact absurd rfl hr
            | cons a as => rfl
          simp [filters, hreg, hz, hc, hzs', hr', mem_sortedUnique, List.mem_filterMap,
            List.mem_filter, optIsin_true_iff, hzs, hr]
          aesop

/-- Division by a constant distributes over a list sum. -/
theorem sum_map_div (l : List ℚ) (n : ℚ) : (l.map (fun x => x / n)).sum = l.sum / n := by
  induction l with
  | nil => simp
  | cons x xs ih => simp [ih, add_div]

/-- A row is in the trailing window exactly when it is a source row whose
parsed date lies in the seven days ending the day before the target. -/
theorem mem_last7_window (rows : List CRow) (d : Int) (r : CRow) :
    r ∈ last7_window rows d ↔
      r ∈ rows ∧ ∃ t, r.act_date = some t ∧ d - 7 ≤ t ∧ t ≤ d - 1 := by
  unfold last7_window
  rw [List.mem_filter]
  constructor
  · rintro ⟨hm, hc⟩
    cases hd : r.act_date with
    | none => rw [hd] at hc; simp at hc
    | some t =>
      rw [hd] at hc
      simp only [Bool.and_eq_true, decide_eq_true_eq] at hc
      exact ⟨hm, t, rfl, hc.1, hc.2⟩
  · rintro ⟨hm, t, hd, h1, h2⟩
    refine ⟨hm, ?_⟩
    rw [hd]
    simp only [Bool.and_eq_true, decide_eq_true_eq]
    exact ⟨h1, h2⟩

/-- A nonempty trailing window has at least one distinct parsed date. -/
theorem nuniqueDates_pos (rows : List CRow) (d : Int) (hw : last7_window rows d ≠ []) :
    1 ≤ nuniqueDates (last7_window rows d) := by
  unfold nuniqueDates
  cases hwl : last7_window rows d with
  | nil => exact absurd hwl hw
  | cons r wrest =>
    have hr : r ∈ last7_window rows d := by rw [hwl]; exact List.mem_cons_self _ _
    rcases (mem_last7_window rows d r).mp hr with ⟨_, t, hd, _, _⟩
    have ht : t ∈ ((last7_window rows d).filterMap (fun r => r.act_date)).dedup :=
      List.mem_dedup.mpr (List.mem_filterMap.mpr ⟨r, hr, hd⟩)
    rw [hwl] at ht
    have hne : (((r :: wrest).filterMap (fun r => r.act_date)).dedup) ≠ [] := by
      intro hc
      rw [hc] at ht
      simp at ht
    exact List.length_pos.mpr hne

/-- The trailing-average curve always has 24 entries. -/
theorem last7_length (rows : List CRow) (cols : List String) (d : Int) :
    (last7_curve_of rows cols d).length = 24 := by
  simp only [last7_curve_of]
  split
  · simp
  · exact padTo24_length _

/-- Entry i of the trailing-average curve for a nonempty window: the sum
of the first i plus one per-column window sums divided by the count of
distinct dates present. -/
theorem last7_getD (rows : List CRow) (cols : List String) (d : Int)
    (hw : last7_window rows d ≠ []) (i : ℕ) (hi : i < 24) :
    (last7_curve_of rows cols d).getD i 0 =
      ((cols.map (col_sum (last7_window rows d))).take (i+1)).sum /
        ((nuniqueDates (last7_window rows d) : ℕ) : ℚ) := by
  have hwne : (last7_window rows d).isEmpty = false := by
    cases hwl : last7_window rows d with
    | nil => exact absurd hwl hw
    | cons a b => rfl
  have hn1 : max (nuniqueDates (last7_window rows d)) 1 = nuniqueDates (last7_window rows d) :=
    Nat.max_eq_left (nuniqueDates_pos rows d hw)
  simp only [last7_curve_of, hwne, Bool.false_or]
  by_cases hcols : cols.isEmpty
  · have hcnil : cols = [] := by simpa [List.isEmpty_iff] using hcols
    subst hcnil
    simp only [hcols, if_true]
    have hz : (List.replicate 24 (0:ℚ)).getD i 0 = 0 := by
      rw [List.getD_eq_getElem _ _ (by simpa using hi), List.getElem_replicate]
    rw [hz]
    simp
  · simp only [hcols, Bool.false_eq_true, if_false]
    rw [padcum_getD _ _ hi, hn1]
    have hmm : cols.map (fun c => col_sum (last7_window rows d) c /
        ((nuniqueDates (last7_window rows d) : ℕ) : ℚ)) =
        (cols.map (col_sum (last7_window rows d))).map
          (fun x => x / ((nuniqueDates (last7_window rows d) : ℕ) : ℚ)) := by
      rw [List.map_map]
      rfl
    rw [hmm, ← List.map_take, sum_map_div]

/-- Entry i of a map over the 24 hour indices. -/
theorem range24_map_getD (f : ℕ → Option ℚ) (i : ℕ) (hi : i < 24) :
    ((List.range 24).map f).getD i none = f i := by
  rw [List.getD_eq_getElem _ _ (by simpa using hi), List.getElem_map, List.getElem_range]

/-- Entry of an all-none list of 24 entries. -/
theorem replicate24_none_getD (i : ℕ) (hi : i < 24) :
    (List.replicate 24 (none : Option ℚ)).getD i none = none := by
  rw [List.getD_eq_getElem _ _ (by simpa using hi), List.getElem_replicate]

/-- Entry i of the displayed actual curve on a past date: always the raw
value. -/
theorem base_curve_getD_none (raw : List ℚ) (i : ℕ) (hi : i < 24) :
    (base_curve_of raw none).getD i none = some (raw.getD i 0) := by
  unfold base_curve_of
  rw [range24_map_getD _ i hi]

/-- Entry i of the displayed actual curve on the current date: the raw
value up to the current hour, none after. -/
theorem base_curve_getD_some (raw : List ℚ) (h i : ℕ) (hi : i < 24) :
    (base_curve_of raw (some h)).getD i none =
      if i ≤ h then some (raw.getD i 0) else none := by
  unfold base_curve_of
  rw [range24_map_getD _ i hi]

/-- Explicit form of the /chart-data result on a parsed date. -/
theorem chart_data_some (d : Dataset) (cols : List String) (sd : Int)
    (regs zs chs : List String) (nd : Int) (nh : ℕ) :
    chart_data d cols (some sd) regs zs chs nd nh =
      Except.ok
        { base := base_curve_of (cumulative (day_rows (applyFilters d regs zs chs) sd) cols)
            (if sd = nd then some nh else none),
          prev := cumulative (day_rows (applyFilters d regs zs chs) (sd - 1)) cols,
          last7 := last7_curve_of (applyFilters d regs zs chs) cols sd,
          projected := calculate_projection
            (cumulative (day_rows (applyFilters d regs zs chs) (sd - 1)) cols)
            (last7_curve_of (applyFilters d regs zs chs) cols sd)
            (if sd = nd then some nh else none)
            ((if sd = nd then some nh else none).map (fun h =>
              (cumulative (day_rows (applyFilters d regs zs chs) sd) cols).getD h 0)),
          current_hour := (if sd = nd then some nh else none),
          live_point := (if sd = nd then some nh else none).map (fun h =>
            (cumulative (day_rows (applyFilters d regs zs chs) sd) cols).getD h 0) } := rfl

/-- A nonempty list is not isEmpty. -/
theorem isEmpty_false_of_ne {α : Type} (l : List α) (h : l ≠ []) : l.isEmpty = false := by
  cases l with
  | nil => exact absurd rfl h
  | cons x xs => rfl

/-- The discovered hour columns permute the columns passing the prefix
test. -/
theorem hour_cols_perm (cols : List String) :
    List.Perm (hour_cols_of cols) (cols.filter isHourCol) :=
  sortBy_perm _ _

/-- The discovered hour columns are sorted ascending by the parsed hour
key. -/
theorem hour_cols_pairwise (cols : List String) :
    (hour_cols_of cols).Pairwise (fun a b => parse_hour_index a ≤ parse_hour_index b) := by
  have hp := pairwise_sortBy (fun a b => decide (parse_hour_index a < parse_hour_index b))
    (fun a b hab => by
      simp only [decide_eq_true_eq] at hab
      simp only [decide_eq_false_iff_not]
      omega)
    (fun a b c h1 h2 => by
      simp only [decide_eq_false_iff_not] at h1 h2 ⊢
      omega)
    (cols.filter isHourCol)
  refine hp.imp ?_
  intro a b hab
  simp only [decide_eq_false_iff_not] at hab
  omega

/-- Claim C1: for every pair of 24-length curves, every current hour and
current value, calculate_projection returns a 24-entry sequence that is
entirely undefined when the current hour is undefined, at least 23, or
the current value is undefined; otherwise entry i is undefined for every
i at most the current hour, and for every later i up to 23 equals the
current value plus half the growth of each reference curve since the
current hour. -/
theorem C1_projection_contract (prev last7 : List ℚ)
    (hp : prev.length = 24) (hl : last7.length = 24)
    (ch : Option ℕ) (cv : Option ℚ) :
    (calculate_projection prev last7 ch cv).length = 24 ∧
    ((ch = none ∨ (∃ h, ch = some h ∧ 23 ≤ h) ∨ cv = none) →
      calculate_projection prev last7 ch cv = List.replicate 24 none) ∧
    (∀ h v, ch = some h → cv = some v → h < 23 →
      (∀ i, i ≤ h → (calculate_projection prev last7 ch cv).getD i none = none) ∧
      (∀ i, h < i → i ≤ 23 → (calculate_projection prev last7 ch cv).getD i none =
        some (v + (1/2) * (prev.getD i 0 - prev.getD h 0)
          + (1/2) * (last7.getD i 0 - last7.getD h 0)))) := by
  refine ⟨calcproj_length _ _ _ _, ?_, ?_⟩
  · rintro (rfl | ⟨h, rfl, hh⟩ | rfl)
    · exact calcproj_none_hour _ _ _
    · exact calcproj_hour_ge _ _ _ _ hh
    · cases ch with
      | none => exact calcproj_none_hour _ _ _
      | some h => exact calcproj_none_value _ _ _
  · rintro h v rfl rfl hh23
    have hep := ensureCurve_eq_self prev hp
    have hel := ensureCurve_eq_self last7 hl
    constructor
    · intro i hij
      rw [calcproj_getD _ _ _ _ hh23 i (by omega), if_neg (by omega)]
    · intro i hgt hle
      rw [calcproj_getD _ _ _ _ hh23 i (by omega), if_pos hgt, hep, hel]

/-- Witness for C1: the specification example, current hour 10, current
value 50, yields projected hour 15 equal to 65, and hour 10 undefined. -/
theorem C1_projection_contract_witness :
    (calculate_projection exPrev exLast7 (some 10) (some 50)).getD 15 none = some 65 ∧
    (calculate_projection exPrev exLast7 (some 10) (some 50)).getD 10 none = none := by
  have h := C1_projection_contract exPrev exLast7 (by decide) (by decide) (some 10) (some 50)
  have h1 := (h.2.2 10 50 rfl rfl (by omega)).2 15 (by omega) (by omega)
  have h2 := (h.2.2 10 50 rfl rfl (by omega)).1 10 (by omega)
  refine ⟨?_, h2⟩
  rw [h1]
  simp only [exPrev, exLast7, List.getD_cons_succ, List.getD_cons_zero]
  norm_num

/-- Claim C2: the Curve Builder output always has 24 entries; entry i is
the cumulative sum of the per-hour column sums over the first i plus one
hour columns (which entails the flat padding and the truncation); an
empty subset or empty hour-field list yields 24 zeros; and in the
nonempty case the output is literally the cumulative sums padded by the
final value when shorter than 24 and truncated to 24 when longer. -/
theorem C2_curve_builder (rows : List CRow) (cols : List String) :
    (cumulative rows cols).length = 24 ∧
    (∀ i, i < 24 → (cumulative rows cols).getD i 0 =
      ((cols.map (col_sum rows)).take (i+1)).sum) ∧
    ((rows = [] ∨ cols = []) → cumulative rows cols = List.replicate 24 0) ∧
    (rows ≠ [] → cols ≠ [] →
      ((cumsum (cols.map (col_sum rows))).length < 24 →
        cumulative rows cols = cumsum (cols.map (col_sum rows)) ++
          List.replicate (24 - (cumsum (cols.map (col_sum rows))).length)
            ((cumsum (cols.map (col_sum rows))).getLastD 0)) ∧
      (24 ≤ (cumsum (cols.map (col_sum rows))).length →
        cumulative rows cols = (cumsum (cols.map (col_sum rows))).take 24)) := by
  refine ⟨cumulative_length _ _, fun i hi => cumulative_getD _ _ i hi, ?_, ?_⟩
  · rintro (rfl | rfl) <;> simp [cumulative]
  · intro hr hc
    have hr' := isEmpty_false_of_ne rows hr
    have hc' := isEmpty_false_of_ne cols hc
    constructor
    · intro hlen
      simp only [cumulative, hr', hc', Bool.or_self, Bool.false_eq_true, if_false,
        padTo24, hlen, if_true]
    · intro hlen
      simp only [cumulative, hr', hc', Bool.or_self, Bool.false_eq_true, if_false,
        padTo24, Nat.not_lt.mpr hlen, if_false]

/-- Witness for C2: the specification padding example, counts 1 to 6 in
columns h0 to h5, evaluated at hours 5 and 23 (flat at 21), and the empty
subset case. -/
theorem C2_curve_builder_witness :
    (cumulative [wRow6] wCols6).getD 5 0 = 21 ∧
    (cumulative [wRow6] wCols6).getD 23 0 = 21 ∧
    cumulative [] wCols6 = List.replicate 24 0 := by
  have h5 := (C2_curve_builder [wRow6] wCols6).2.1 5 (by omega)
  have h23 := (C2_curve_builder [wRow6] wCols6).2.1 23 (by omega)
  have hz := (C2_curve_builder [] wCols6).2.2.1 (Or.inl rfl)
  refine ⟨?_, ?_, hz⟩
  · rw [h5]
    simp [wCols6, col_sum, wRow6, wHours6]
    norm_num
  · rw [h23]
    simp [wCols6, col_sum, wRow6, wHours6]
    norm_num

/-- Claim C5: whenever every hour value of the subset is non-negative,
the Curve Builder output has exactly 24 entries and is non-decreasing. -/
theorem C5_nondecreasing (rows : List CRow) (cols : List String)
    (hnn : ∀ r ∈ rows, ∀ c ∈ cols, 0 ≤ r.hours c) :
    (cumulative rows cols).length = 24 ∧
    (∀ i j, i ≤ j → j < 24 →
      (cumulative rows cols).getD i 0 ≤ (cumulative rows cols).getD j 0) := by
  refine ⟨cumulative_length _ _, fun i j hij hj => ?_⟩
  rw [cumulative_getD _ _ i (by omega), cumulative_getD _ _ j hj]
  have hnncol : ∀ x ∈ cols.map (col_sum rows), 0 ≤ x := by
    intro x hx
    rcases List.mem_map.mp hx with ⟨c, hc, rfl⟩
    unfold col_sum
    refine List.sum_nonneg ?_
    intro y hy
    rcases List.mem_map.mp hy with ⟨r, hr, rfl⟩
    exact hnn r hr c hc
  have key : ∀ (m : List ℚ), (∀ x ∈ m, 0 ≤ x) → ∀ a b : ℕ, a ≤ b →
      (m.take a).sum ≤ (m.take b).sum := by
    intro m hm a b hab
    have hsplit : m.take b = m.take a ++ (m.drop a).take (b - a) := by
      rw [← List.take_add]
      congr 1
      omega
    rw [hsplit, List.sum_append]
    have hpos : 0 ≤ ((m.drop a).take (b - a)).sum := by
      refine List.sum_nonneg ?_
      intro y hy
      exact hm y (List.drop_subset a m (List.take_subset _ _ hy))
    linarith
  exact key _ hnncol (i+1) (j+1) (by omega)

/-- Witness for C5: the non-negative example subset evaluated at hours 2
and 10. -/
theorem C5_nondecreasing_witness :
    (cumulative [wRow6] wCols6).getD 2 0 ≤ (cumulative [wRow6] wCols6).getD 10 0 :=
  (C5_nondecreasing [wRow6] wCols6 (by decide)).2 2 10 (by omega) (by omega)

/-- Claim C3: options come only from rows of the exact target date; zones
are restricted by the selected regions when any; regions by the selected
zones when any (and a zone column exists); channels by both. -/
theorem C3_filter_hierarchy (d : Dataset) (t : Int) (zsel rsel : List String)
    (hreg : d.hasRegion = true) :
    (∀ z, z ∈ (filters d (some t) zsel rsel).zones ↔
      (d.hasZone = true ∧ ∃ r, r ∈ d.rows ∧ r.act_date = some t ∧ r.zone = some z ∧
        (rsel ≠ [] → ∃ s, s ∈ rsel ∧ r.region = some s))) ∧
    (∀ g, g ∈ (filters d (some t) zsel rsel).regions ↔
      (∃ r, r ∈ d.rows ∧ r.act_date = some t ∧ r.region = some g ∧
        (d.hasZone = true → zsel ≠ [] → ∃ s, s ∈ zsel ∧ r.zone = some s))) ∧
    (∀ c, c ∈ (filters d (some t) zsel rsel).channels ↔
      (d.hasChannel = true ∧ ∃ r, r ∈ d.rows ∧ r.act_date = some t ∧ r.channel = some c ∧
        (d.hasZone = true → zsel ≠ [] → ∃ s, s ∈ zsel ∧ r.zone = some s) ∧
        (rsel ≠ [] → ∃ s, s ∈ rsel ∧ r.region = some s))) :=
  ⟨mem_zones_iff d t zsel rsel hreg, mem_regions_iff d t zsel rsel hreg,
   mem_channels_iff d t zsel rsel hreg⟩

/-- Witness for C3: the specification example rows; selecting region R1
yields zone Z1, selecting zone Z2 yields region R2. -/
theorem C3_filter_hierarchy_witness :
    "Z1" ∈ (filters wD3 (some 0) [] ["R1"]).zones ∧
    "R2" ∈ (filters wD3 (some 0) ["Z2"] []).regions := by
  constructor
  · exact ((C3_filter_hierarchy wD3 0 [] ["R1"] rfl).1 "Z1").mpr
      ⟨rfl, wRow31, by simp [wD3], rfl, rfl, fun _ => ⟨"R1", by simp, rfl⟩⟩
  · exact ((C3_filter_hierarchy wD3 0 ["Z2"] [] rfl).2.1 "R2").mpr
      ⟨wRow32, by simp [wD3], rfl, rfl, fun _ hne => ⟨"Z2", by simp, rfl⟩⟩

/-- Claim C4: the last7 curve is built from rows dated in the seven days
ending the day before the target; it has 24 entries; an empty window
yields 24 zeros; and for a nonempty window entry i is the cumulative sum
of the first i plus one per-column window sums divided by the count of
distinct dates actually present. -/
theorem C4_last7_curve (rows : List CRow) (cols : List String) (d : Int) :
    (∀ r, r ∈ last7_window rows d ↔
      r ∈ rows ∧ ∃ t, r.act_date = some t ∧ d - 7 ≤ t ∧ t ≤ d - 1) ∧
    (last7_curve_of rows cols d).length = 24 ∧
    (last7_window rows d = [] → last7_curve_of rows cols d = List.replicate 24 0) ∧
    (last7_window rows d ≠ [] → ∀ i, i < 24 →
      (last7_curve_of rows cols d).getD i 0 =
        ((cols.map (col_sum (last7_window rows d))).take (i+1)).sum /
          ((nuniqueDates (last7_window rows d) : ℕ) : ℚ)) := by
  refine ⟨mem_last7_window rows d, last7_length rows cols d, ?_,
    fun hw i hi => last7_getD rows cols d hw i hi⟩
  intro hw
  have hempty : (last7_window rows d).isEmpty = true := by rw [hw]; rfl
  simp [last7_curve_of, hempty]

/-- Witness for C4: a single row on day 5 with target day 10 lies in the
window, and the averaged cumulative entry at hour 0 is 2. -/
theorem C4_last7_curve_witness :
    (last7_curve_of [wRow4] ["h0"] 10).getD 0 0 = 2 := by
  have hlen : (last7_window [wRow4] 10).length = 1 := rfl
  have hw : last7_window [wRow4] 10 ≠ [] := by
    intro hc
    rw [hc] at hlen
    simp at hlen
  have h := (C4_last7_curve [wRow4] ["h0"] 10).2.2.2 hw 0 (by omega)
  rw [h]
  have hval : (last7_window [wRow4] 10) = [wRow4] := rfl
  rw [hval]
  simp [col_sum, wRow4, nuniqueDates]

/-- Claim C7: the /filters operation returns three empty option sets and
no error whenever the requested date fails to parse or the dataset has no
region column. -/
theorem C7_filters_failsoft (d : Dataset) (sd : Option Int) (zsel rsel : List String) :
    (sd = none → filters d sd zsel rsel = ⟨[], [], []⟩) ∧
    (d.hasRegion = false → filters d sd zsel rsel = ⟨[], [], []⟩) := by
  constructor
  · rintro rfl
    rfl
  · intro hreg
    cases sd with
    | none => rfl
    | some t => simp [filters, hreg]

/-- Witness for C7: an unparseable date, and a dataset lacking the region
column, both yield the three empty sets. -/
theorem C7_filters_failsoft_witness :
    filters wD3 none ["Z1"] ["R1"] = ⟨[], [], []⟩ ∧
    filters wDnoreg (some 0) ["Z1"] ["R1"] = ⟨[], [], []⟩ :=
  ⟨(C7_filters_failsoft wD3 none ["Z1"] ["R1"]).1 rfl,
   (C7_filters_failsoft wDnoreg (some 0) ["Z1"] ["R1"]).2 rfl⟩

/-- Claim C8: the /chart-data operation on an unparseable date returns
the explicit error body with HTTP status 400 and never a payload. -/
theorem C8_chart_reject (d : Dataset) (cols : List String)
    (regs zs chs : List String) (nd : Int) (nh : ℕ) :
    chart_data d cols none regs zs chs nd nh = Except.error ("Invalid date", 400) := rfl

/-- A list that is empty or a sortedUnique image is strictly sorted and
duplicate-free. -/
theorem sorted_nodup_of_shape (xs : List String)
    (h : xs = [] ∨ ∃ l, xs = sortedUnique l) :
    xs.Pairwise (fun a b => a < b) ∧ xs.Nodup := by
  rcases h with rfl | ⟨l, rfl⟩
  · simp
  · exact ⟨sortedUnique_sorted l, sortedUnique_nodup l⟩

/-- Every component of the /filters result is empty or a sortedUnique
image. -/
theorem filters_shape (d : Dataset) (sd : Option Int) (zsel rsel : List String) :
    ((filters d sd zsel rsel).zones = [] ∨
      ∃ l, (filters d sd zsel rsel).zones = sortedUnique l) ∧
    ((filters d sd zsel rsel).regions = [] ∨
      ∃ l, (filters d sd zsel rsel).regions = sortedUnique l) ∧
    ((filters d sd zsel rsel).channels = [] ∨
      ∃ l, (filters d sd zsel rsel).channels = sortedUnique l) := by
  cases sd with
  | none => exact ⟨Or.inl rfl, Or.inl rfl, Or.inl rfl⟩
  | some t =>
    cases hreg : d.hasRegion with
    | false =>
      have h : filters d (some t) zsel rsel = ⟨[], [], []⟩ := by simp [filters, hreg]
      rw [h]
      exact ⟨Or.inl rfl, Or.inl rfl, Or.inl rfl⟩
    | true =>
      refine ⟨?_, ?_, ?_⟩
      · cases hz : d.hasZone with
        | false =>
          left
          simp [filters, hreg, hz]
        | true =>
          right
          by_cases hr : rsel.isEmpty
          · exact ⟨_, by simp [filters, hreg, hz, hr]; rfl⟩
          · exact ⟨_, by simp [filters, hreg, hz, hr]; rfl⟩
      · right
        by_cases hcond : (d.hasZone && !zsel.isEmpty) = true
        · exact ⟨_, by simp [filters, hreg, hcond]; rfl⟩
        · exact ⟨_, by simp [filters, hreg, hcond]; rfl⟩
      · right
        by_cases hcond : (d.hasZone && !zsel.isEmpty) = true
        · by_cases hr : rsel.isEmpty
          · exact ⟨_, by simp [filters, hreg, hcond, hr]; rfl⟩
          · exact ⟨_, by simp [filters, hreg, hcond, hr]; rfl⟩
        · by_cases hr : rsel.isEmpty
          · exact ⟨_, by simp [filters, hreg, hcond, hr]; rfl⟩
          · exact ⟨_, by simp [filters, hreg, hcond, hr]; rfl⟩

/-- Claim C9: each option set of the Filter Resolver is duplicate-free
and sorted lexicographically strictly ascending (the values are strings
in the model, the stringification of the source cells), and resolving
twice with identical inputs yields the identical result. -/
theorem C9_options_sorted (d : Dataset) (sd : Option Int) (zsel rsel : List String) :
    ((filters d sd zsel rsel).zones.Pairwise (fun a b => a < b) ∧
      (filters d sd zsel rsel).zones.Nodup) ∧
    ((filters d sd zsel rsel).regions.Pairwise (fun a b => a < b) ∧
      (filters d sd zsel rsel).regions.Nodup) ∧
    ((filters d sd zsel rsel).channels.Pairwise (fun a b => a < b) ∧
      (filters d sd zsel rsel).channels.Nodup) ∧
    filters d sd zsel rsel = filters d sd zsel rsel := by
  obtain ⟨h1, h2, h3⟩ := filters_shape d sd zsel rsel
  exact ⟨sorted_nodup_of_shape _ h1, sorted_nodup_of_shape _ h2,
    sorted_nodup_of_shape _ h3, rfl⟩

/-- Counterexample for C6: the column h10000 contains the integer 10000,
the column hx contains none, yet hx is placed before h10000, refuting
that every integer-free hour field comes after all fields containing an
integer. -/
theorem C6_counterexample :
    hour_cols_of ["h10000", "hx"] = ["hx", "h10000"] ∧
    firstIntRun "hx".data = none ∧
    firstIntRun "h10000".data = some 10000 := by
  refine ⟨by decide, by decide, by decide⟩

/-- Claim C6 (amended): the hour fields are exactly the columns whose
lowercased name starts with h, ordered ascending by the key
parse_hour_index (the first embedded integer, 9999 when there is none);
consequently a field with no extractable integer comes after every field
whose embedded integer is below 9999, but not necessarily after a field
whose integer is 9999 or more. -/
theorem C6_hour_fields (cols : List String) :
    List.Perm (hour_cols_of cols) (cols.filter isHourCol) ∧
    (∀ c, c ∈ hour_cols_of cols ↔ c ∈ cols ∧ isHourCol c = true) ∧
    (hour_cols_of cols).Pairwise (fun a b => parse_hour_index a ≤ parse_hour_index b) ∧
    (∀ i j, i < j → j < (hour_cols_of cols).length →
      firstIntRun ((hour_cols_of cols).getD i "").data = none →
      ∀ n, firstIntRun ((hour_cols_of cols).getD j "").data = some n → 9999 ≤ n) := by
  refine ⟨hour_cols_perm cols, ?_, hour_cols_pairwise cols, ?_⟩
  · intro c
    rw [(hour_cols_perm cols).mem_iff, List.mem_filter]
  · intro i j hij hj hnone n hsome
    have hp := hour_cols_pairwise cols
    have hi : i < (hour_cols_of cols).length := by omega
    have hrel := (List.pairwise_iff_get.mp hp) ⟨i, hi⟩ ⟨j, hj⟩ hij
    have e1 : parse_hour_index ((hour_cols_of cols).getD i "") = 9999 := by
      unfold parse_hour_index
      rw [hnone]
      rfl
    have e2 : parse_hour_index ((hour_cols_of cols).getD j "") = n := by
      unfold parse_hour_index
      rw [hsome]
      rfl
    rw [List.getD_eq_getElem _ _ hi] at e1
    rw [List.getD_eq_getElem _ _ hj] at e2
    rw [List.get_eq_getElem, List.get_eq_getElem] at hrel
    rw [e1, e2] at hrel
    exact hrel

/-- Witness for C6: the column named h3 is discovered among mixed
columns, and the column named hour 3 parses to index 3. -/
theorem C6_hour_fields_witness :
    "h3" ∈ hour_cols_of ["act_date", "h3", "region"] ∧ parse_hour_index "hour 3" = 3 :=
  ⟨((C6_hour_fields ["act_date", "h3", "region"]).2.1 "h3").mpr ⟨by decide, by decide⟩,
   by decide⟩

/-- Claim C10: on a parsed date the actual and projected curves partition
the 24 hours: base holds a number up to and including the current hour
(all 24 hours when the requested date is not the evaluation day), the
projection holds a number strictly after the current hour, and at every
hour exactly one of the two is defined. -/
theorem C10_partition (d : Dataset) (cols : List String) (sd : Int)
    (regs zs chs : List String) (nd : Int) (nh : ℕ) (hnh : nh ≤ 23) :
    ∃ p, chart_data d cols (some sd) regs zs chs nd nh = Except.ok p ∧
      p.current_hour = (if sd = nd then some nh else none) ∧
      (∀ i, i < 24 →
        (((p.base.getD i none).isSome = true) ↔ (sd ≠ nd ∨ i ≤ nh)) ∧
        (((p.projected.getD i none).isSome = true) ↔ (sd = nd ∧ nh < i)) ∧
        (((p.base.getD i none).isSome = true) ↔
          ¬ ((p.projected.getD i none).isSome = true))) := by
  refine ⟨_, chart_data_some d cols sd regs zs chs nd nh, rfl, ?_⟩
  intro i hi
  dsimp only
  by_cases hsd : sd = nd
  · rw [if_pos hsd]
    rw [base_curve_getD_some _ nh i hi]
    simp only [Option.map_some']
    by_cases h23 : nh < 23
    · rw [calcproj_getD _ _ _ _ h23 i hi]
      by_cases hin : i ≤ nh
      · rw [if_pos hin, if_neg (by omega)]
        simp [hsd, hin]
      · rw [if_neg hin, if_pos (by omega)]
        simp [hsd]
        omega
    · have h23' : nh = 23 := by omega
      rw [calcproj_hour_ge _ _ _ _ (by omega), replicate24_none_getD i hi]
      rw [if_pos (by omega)]
      simp [hsd]
      omega
  · rw [if_neg hsd]
    rw [base_curve_getD_none _ i hi]
    simp only [Option.map_none']
    rw [calcproj_none_hour, replicate24_none_getD i hi]
    simp [hsd]

/-- Witness for C10: on the evaluation day with current hour 5, hour 3 is
actual-only and hour 10 is projected-only. -/
theorem C10_partition_witness :
    ∃ p, chart_data wD3 ["h0"] (some 0) [] [] [] 0 5 = Except.ok p ∧
      (p.base.getD 3 none).isSome = true ∧ p.projected.getD 3 none = none ∧
      p.base.getD 10 none = none ∧ (p.projected.getD 10 none).isSome = true := by
  obtain ⟨p, hp, hch, hprops⟩ := C10_partition wD3 ["h0"] 0 [] [] [] 0 5 (by omega)
  obtain ⟨hb3, hp3, hx3⟩ := hprops 3 (by omega)
  obtain ⟨hb10, hp10, hx10⟩ := hprops 10 (by omega)
  refine ⟨p, hp, ?_, ?_, ?_, ?_⟩
  · exact hb3.mpr (Or.inr (by omega))
  · have hns : ¬ (p.projected.getD 3 none).isSome = true := by
      intro hc
      have := hp3.mp hc
      omega
    exact Option.not_isSome_iff_eq_none.mp hns
  · have hns : ¬ (p.base.getD 10 none).isSome = true := by
      intro hc
      rcases hb10.mp hc with h | h
      · exact h rfl
      · omega
    exact Option.not_isSome_iff_eq_none.mp hns
  · exact hp10.mpr ⟨rfl, by omega⟩
